import Mathlib

/-!
Verification development for the pricing-calculator repository (src/app.py).

The script is embedded shallowly:
  - Python JSON values (the parsed body of the catalog response) become the
    inductive type `JValue`; Python floats are modelled by exact rationals.
  - `fetch_pricing_data` becomes a function from the outcome of the HTTP call
    (a raised `requests.RequestException`, or a parsed JSON body) to
    `Except PyError (pricing mapping, available model list)`; an uncaught
    Python exception (AttributeError, TypeError, KeyError) is the `.error`
    case, and every `return` of the source is an `.ok`.
  - Python dicts keyed by the model slug become association lists in
    insertion order, with last-write-wins insertion, matching dict semantics.
  - The cost loop of the script body becomes `costLoop` / `computeCosts`.
-/

/-- JSON value as produced by Python json parsing of the catalog response.
Numbers are modelled as exact rationals. -/
inductive JValue where
  | null
  | bool (b : Bool)
  | num (q : ℚ)
  | str (s : String)
  | arr (elems : List JValue)
  | obj (fields : List (String × JValue))

mutual

/-- Boolean structural equality on `JValue` (deriving fails on the nested
inductive, so it is written by hand). -/
def jeq : JValue → JValue → Bool
  | .null, .null => true
  | .bool a, .bool b => a == b
  | .num a, .num b => a == b
  | .str a, .str b => a == b
  | .arr a, .arr b => jeqList a b
  | .obj a, .obj b => jeqFields a b
  | .null, .bool _ => false
  | .null, .num _ => false
  | .null, .str _ => false
  | .null, .arr _ => false
  | .null, .obj _ => false
  | .bool _, .null => false
  | .bool _, .num _ => false
  | .bool _, .str _ => false
  | .bool _, .arr _ => false
  | .bool _, .obj _ => false
  | .num _, .null => false
  | .num _, .bool _ => false
  | .num _, .str _ => false
  | .num _, .arr _ => false
  | .num _, .obj _ => false
  | .str _, .null => false
  | .str _, .bool _ => false
  | .str _, .num _ => false
  | .str _, .arr _ => false
  | .str _, .obj _ => false
  | .arr _, .null => false
  | .arr _, .bool _ => false
  | .arr _, .num _ => false
  | .arr _, .str _ => false
  | .arr _, .obj _ => false
  | .obj _, .null => false
  | .obj _, .bool _ => false
  | .obj _, .num _ => false
  | .obj _, .str _ => false
  | .obj _, .arr _ => false

/-- Elementwise `jeq` on lists of values. -/
def jeqList : List JValue → List JValue → Bool
  | [], [] => true
  | x :: xs, y :: ys => jeq x y && jeqList xs ys
  | [], _ :: _ => false
  | _ :: _, [] => false

/-- Elementwise key/value `jeq` on object field lists. -/
def jeqFields : List (String × JValue) → List (String × JValue) → Bool
  | [], [] => true
  | (k1, v1) :: xs, (k2, v2) :: ys => k1 == k2 && jeq v1 v2 && jeqFields xs ys
  | [], _ :: _ => false
  | _ :: _, [] => false

end

mutual

theorem jeq_refl : (a : JValue) → jeq a a = true
  | .null => rfl
  | .bool b => by simp [jeq]
  | .num q => by simp [jeq]
  | .str s => by simp [jeq]
  | .arr xs => by simpa [jeq] using jeqList_refl xs
  | .obj fs => by simpa [jeq] using jeqFields_refl fs

theorem jeqList_refl : (xs : List JValue) → jeqList xs xs = true
  | [] => rfl
  | x :: xs => by simp [jeqList, jeq_refl x, jeqList_refl xs]

theorem jeqFields_refl : (fs : List (String × JValue)) → jeqFields fs fs = true
  | [] => rfl
  | (k, v) :: fs => by simp [jeqFields, jeq_refl v, jeqFields_refl fs]

end

mutual

theorem eq_of_jeq : (a b : JValue) → jeq a b = true → a = b
  | .null, .null, _ => rfl
  | .bool a, .bool b, h => by simp [jeq] at h; simp [h]
  | .num a, .num b, h => by simp [jeq] at h; simp [h]
  | .str a, .str b, h => by simp [jeq] at h; simp [h]
  | .arr a, .arr b, h => by
      simp only [jeq] at h
      simp [eqList_of_jeqList a b h]
  | .obj a, .obj b, h => by
      simp only [jeq] at h
      simp [eqFields_of_jeqFields a b h]
  | .null, .bool _, h => by simp [jeq] at h
  | .null, .num _, h => by simp [jeq] at h
  | .null, .str _, h => by simp [jeq] at h
  | .null, .arr _, h => by simp [jeq] at h
  | .null, .obj _, h => by simp [jeq] at h
  | .bool _, .null, h => by simp [jeq] at h
  | .bool _, .num _, h => by simp [jeq] at h
  | .bool _, .str _, h => by simp [jeq] at h
  | .bool _, .arr _, h => by simp [jeq] at h
  | .bool _, .obj _, h => by simp [jeq] at h
  | .num _, .null, h => by simp [jeq] at h
  | .num _, .bool _, h => by simp [jeq] at h
  | .num _, .str _, h => by simp [jeq] at h
  | .num _, .arr _, h => by simp [jeq] at h
  | .num _, .obj _, h => by simp [jeq] at h
  | .str _, .null, h => by simp [jeq] at h
  | .str _, .bool _, h => by simp [jeq] at h
  | .str _, .num _, h => by simp [jeq] at h
  | .str _, .arr _, h => by simp [jeq] at h
  | .str _, .obj _, h => by simp [jeq] at h
  | .arr _, .null, h => by simp [jeq] at h
  | .arr _, .bool _, h => by simp [jeq] at h
  | .arr _, .num _, h => by simp [jeq] at h
  | .arr _, .str _, h => by simp [jeq] at h
  | .arr _, .obj _, h => by simp [jeq] at h
  | .obj _, .null, h => by simp [jeq] at h
  | .obj _, .bool _, h => by simp [jeq] at h
  | .obj _, .num _, h => by simp [jeq] at h
  | .obj _, .str _, h => by simp [jeq] at h
  | .obj _, .arr _, h => by simp [jeq] at h

theorem eqList_of_jeqList : (xs ys : List JValue) → jeqList xs ys = true → xs = ys
  | [], [], _ => rfl
  | x :: xs, y :: ys, h => by
      simp only [jeqList, Bool.and_eq_true] at h
      simp [eq_of_jeq x y h.1, eqList_of_jeqList xs ys h.2]
  | [], _ :: _, h => by simp [jeqList] at h
  | _ :: _, [], h => by simp [jeqList] at h

theorem eqFields_of_jeqFields :
    (xs ys : List (String × JValue)) → jeqFields xs ys = true → xs = ys
  | [], [], _ => rfl
  | (k1, v1) :: xs, (k2, v2) :: ys, h => by
      simp only [jeqFields, Bool.and_eq_true] at h
      obtain ⟨⟨hk, hv⟩, hrest⟩ := h
      simp only [beq_iff_eq] at hk
      simp [hk, eq_of_jeq v1 v2 hv, eqFields_of_jeqFields xs ys hrest]
  | [], _ :: _, h => by simp [jeqFields] at h
  | _ :: _, [], h => by simp [jeqFields] at h

end

instance : DecidableEq JValue := fun a b =>
  if h : jeq a b = true then isTrue (eq_of_jeq a b h)
  else isFalse (fun he => h (he ▸ jeq_refl a))

/-- Python truthiness of a JSON value: None, False, 0, empty string, empty
list and empty dict are falsy, everything else is truthy. -/
def truthy : JValue → Bool
  | .null => false
  | .bool b => b
  | .num q => !(q == 0)
  | .str s => !s.isEmpty
  | .arr xs => !xs.isEmpty
  | .obj fs => !fs.isEmpty

/-- Field access on an object, as json.loads produces it for Python: when a
key occurs more than once the last occurrence wins. -/
def getField (fs : List (String × JValue)) (k : String) : Option JValue :=
  (fs.reverse.find? (fun p => p.1 == k)).map (fun p => p.2)

/-- Models Python dict.get with a default value. -/
def getFieldD (fs : List (String × JValue)) (k : String) (d : JValue) : JValue :=
  (getField fs k).getD d

/-- Numeric value of a list of decimal digit characters. -/
def digitsVal (cs : List Char) : ℕ :=
  cs.foldl (fun n c => 10 * n + (c.toNat - 48)) 0

/-- ASCII whitespace as stripped by Python str.strip. -/
def isPySpace (c : Char) : Bool :=
  c == ' ' || c == '\t' || c == '\n' || c == '\r' || c == '\x0b' || c == '\x0c'

/-- Strips surrounding whitespace from a character list, as Python float
does on its string argument. -/
def stripChars (cs : List Char) : List Char :=
  ((cs.dropWhile isPySpace).reverse.dropWhile isPySpace).reverse

/-- Models Python float applied to a string: surrounding whitespace is
stripped, then an optional sign, a decimal mantissa with at most one point
and at least one digit, and an optional exponent part are accepted; anything
else raises ValueError, modelled as none. The special spellings inf,
infinity and nan accepted by Python denote values outside the rational
embedding and are not exercised by any claim; they are not modelled. -/
def parseFloat (s : String) : Option ℚ :=
  let cs := stripChars s.data
  let signAndRest : Bool × List Char :=
    match cs with
    | '-' :: rest => (true, rest)
    | '+' :: rest => (false, rest)
    | rest => (false, rest)
  let neg := signAndRest.1
  let cs1 := signAndRest.2
  let mant := cs1.takeWhile (fun c => !(c == 'e' || c == 'E'))
  let expPart := cs1.dropWhile (fun c => !(c == 'e' || c == 'E'))
  let expVal : Option ℤ :=
    match expPart with
    | [] => some 0
    | _ :: ecs =>
      let esignAndRest : Bool × List Char :=
        match ecs with
        | '-' :: rest => (true, rest)
        | '+' :: rest => (false, rest)
        | rest => (false, rest)
      if esignAndRest.2.isEmpty || !esignAndRest.2.all Char.isDigit then none
      else some (if esignAndRest.1 then -(digitsVal esignAndRest.2 : ℤ)
                 else (digitsVal esignAndRest.2 : ℤ))
  match expVal with
  | none => none
  | some e =>
    let ip := mant.takeWhile (fun c => !(c == '.'))
    let dotFrac := mant.dropWhile (fun c => !(c == '.'))
    if !ip.all Char.isDigit then none
    else
      match dotFrac with
      | [] =>
        if ip.isEmpty then none
        else
          let v : ℚ := (digitsVal ip : ℚ) * (10 : ℚ) ^ e
          some (if neg then -v else v)
      | _ :: fcs =>
        if !fcs.all Char.isDigit then none
        else if ip.isEmpty && fcs.isEmpty then none
        else
          let v : ℚ :=
            ((digitsVal ip : ℚ) + (digitsVal fcs : ℚ) / (10 : ℚ) ^ fcs.length) * (10 : ℚ) ^ e
          some (if neg then -v else v)

/-- Models the Python call float on an arbitrary value inside the try block:
numbers and booleans convert, strings are parsed, and every other type
raises TypeError; ValueError and TypeError are both caught by the except
clause of the source, so both are modelled as none. -/
def pyFloat : JValue → Option ℚ
  | .num q => some q
  | .bool b => some (if b then 1 else 0)
  | .str s => parseFloat s
  | _ => none

/-- Models the source expression: float of the price value if the value is
truthy, else 0.0 (lines 36 to 38 of src/app.py). -/
def floatOrZero (v : JValue) : Option ℚ :=
  if truthy v then pyFloat v else some 0

/-- Per-token prompt and completion price of one model, the value type of the
pricing_data dict of the source. -/
structure Price where
  prompt : ℚ
  completion : ℚ
deriving DecidableEq

/-- The pricing_data dict of the source: keyed by the slug value, kept in
insertion order as Python dicts are. -/
abbrev PricingDict := List (JValue × Price)

/-- Python dict item assignment: overwrite in place when the key is present,
append otherwise. -/
def dictInsert (m : PricingDict) (k : JValue) (v : Price) : PricingDict :=
  if m.any (fun p => p.1 == k) then
    m.map (fun p => if p.1 == k then (p.1, v) else p)
  else m ++ [(k, v)]

/-- Python dict lookup, returning none when the key is absent. -/
def dictLookup (m : PricingDict) (k : JValue) : Option Price :=
  (m.find? (fun p => p.1 == k)).map (fun p => p.2)

/-- Uncaught Python exceptions that the script can raise. -/
inductive PyError where
  | attributeError
  | typeError
  | keyError (k : JValue)
deriving DecidableEq

/-- The fallback_pricing dict of use_fallback_pricing (src/app.py lines 70
to 80), with the exact literal prices of the source. -/
def fallback_pricing : PricingDict :=
  [ (.str "google/gemma-2-9b", ⟨0.000000, 0.000000⟩),
    (.str "qwen/qwen3-coder-flash", ⟨0.00000045, 0.00000045⟩),
    (.str "openai/gpt-4", ⟨0.00003, 0.00006⟩),
    (.str "openai/gpt-3.5-turbo", ⟨0.0000005, 0.0000015⟩),
    (.str "anthropic/claude-3-sonnet", ⟨0.000003, 0.000015⟩),
    (.str "meta-llama/llama-3.1-8b", ⟨0.0000002, 0.0000002⟩) ]

/-- Models use_fallback_pricing (src/app.py lines 69 to 82): the fallback
dict together with the list of its keys. -/
def use_fallback_pricing : PricingDict × List JValue :=
  (fallback_pricing, fallback_pricing.map (fun p => p.1))

/-- The mutable state of the model loop of fetch_pricing_data. -/
structure LoopState where
  pricing_data : PricingDict
  available_models : List JValue
deriving DecidableEq

/-- Hashability of a JSON value as a Python dict key: lists and dicts are
unhashable, every other JSON type hashes. Using an unhashable value as a
dict key raises TypeError. -/
def hashable : JValue → Bool
  | .arr _ => false
  | .obj _ => false
  | _ => true

/-- One iteration of the model loop (src/app.py lines 24 to 49). A skipped
model leaves the state unchanged: a falsy endpoint, a caught float
conversion failure, or a caught TypeError from the dict assignment
pricing_data at line 41 when the slug value is unhashable (the per-model
except at line 47 catches ValueError and TypeError, and both conversions at
lines 36 to 38 run before the assignment). A truthy non-dict endpoint or a
non-dict pricing value hits a .get call on a non-dict and raises
AttributeError; a non-dict model raises AttributeError at model.get. -/
def processModel (st : LoopState) (model : JValue) : Except PyError LoopState :=
  match model with
  | .obj mfields =>
    let slug := getFieldD mfields "slug" (.str "unknown")
    let endpoint := getFieldD mfields "endpoint" (.obj [])
    if truthy endpoint then
      match endpoint with
      | .obj efields =>
        let pricing := getFieldD efields "pricing" (.obj [])
        match pricing with
        | .obj pfields =>
          let prompt_price := getFieldD pfields "prompt" (.str "0")
          let completion_price := getFieldD pfields "completion" (.str "0")
          match floatOrZero prompt_price with
          | none => .ok st
          | some prompt_float =>
            match floatOrZero completion_price with
            | none => .ok st
            | some completion_float =>
              if hashable slug then
                .ok ⟨dictInsert st.pricing_data slug ⟨prompt_float, completion_float⟩,
                     st.available_models ++ [slug]⟩
              else .ok st
        | _ => .error .attributeError
      | _ => .error .attributeError
    else .ok st
  | _ => .error .attributeError

/-- The model loop of fetch_pricing_data, folded over the iterated models. -/
def processModels (st : LoopState) : List JValue → Except PyError LoopState
  | [] => .ok st
  | m :: ms =>
    match processModel st m with
    | .error e => .error e
    | .ok st2 => processModels st2 ms

/-- Python iteration over the models value: a list yields its elements, a
string yields its characters as one-character strings, a dict yields its
keys, and every other type raises TypeError. -/
def pyIterate : JValue → Except PyError (List JValue)
  | .arr xs => .ok xs
  | .str s => .ok (s.toList.map (fun c => .str (String.mk [c])))
  | .obj fs => .ok (fs.map (fun p => .str p.1))
  | _ => .error .typeError

/-- Outcome of the HTTP call of fetch_pricing_data. The exn case covers
every requests.RequestException: connection failure, timeout, a non-2xx
status raised by raise_for_status, and a JSON decode failure of
response.json, whose exception class is a RequestException subclass. The
success case carries the parsed JSON body. -/
inductive HttpOutcome where
  | exn
  | success (body : JValue)

/-- Embedding of fetch_pricing_data (src/app.py lines 10 to 64) as a
function of the HTTP outcome. The except clause of the source catches only
RequestException, so the exn case returns the fallback, while attribute and
type errors raised while traversing the parsed body propagate as errors. -/
def fetch_pricing_data (r : HttpOutcome) :
    Except PyError (PricingDict × List JValue) :=
  match r with
  | .exn => .ok use_fallback_pricing
  | .success data =>
    match data with
    | .obj dfields =>
      let models := getFieldD dfields "data" (.arr [])
      if !truthy models then .ok use_fallback_pricing
      else
        match pyIterate models with
        | .error e => .error e
        | .ok ms =>
          match processModels ⟨[], []⟩ ms with
          | .error e => .error e
          | .ok st =>
            if st.available_models.isEmpty then .ok use_fallback_pricing
            else .ok (st.pricing_data, st.available_models)
    | _ => .error .attributeError

/-- One entry of AGENT_USAGE_PATTERNS (src/app.py lines 86 to 129). -/
structure AgentPattern where
  default_uses_per_month : ℕ
  tokens_per_use : ℕ
  default_model : String
  description : String
deriving DecidableEq

/-- The AGENT_USAGE_PATTERNS dict of the source, in insertion order. -/
def AGENT_USAGE_PATTERNS : List (String × AgentPattern) :=
  [ ("Curriculum Mapping Agent",
      ⟨1, 1000, "google/gemma-3-12b-it", "Monthly curriculum analysis"⟩),
    ("Content Sourcing Agent",
      ⟨1, 5000, "google/gemma-3-12b-it", "Finding lesson resources"⟩),
    ("Planner Agent",
      ⟨4, 4000, "qwen/qwen3-8b", "Bi-weekly lesson planning"⟩),
    ("Lesson Designer",
      ⟨4, 5000, "qwen/qwen3-8b", "Creating lesson activities"⟩),
    ("Assessment Agent",
      ⟨4, 5000, "qwen/qwen3-8b", "Generating assessments"⟩),
    ("Feedback Agent",
      ⟨4, 1000, "google/gemma-3-12b-it", "Student feedback review"⟩),
    ("Slide Generation Agent",
      ⟨4, 4000, "openai/gpt-4.1", "Creating presentation slides"⟩) ]

/-- The default_model_idx expression of the collector (src/app.py lines 147
to 148): the index of the default model of the preset when it is in the
available model list, else 0. -/
def default_model_idx (available_models : List JValue) (default_model : String) : ℕ :=
  if (JValue.str default_model) ∈ available_models then
    available_models.indexOf (JValue.str default_model)
  else 0

/-- The model the selectbox presents initially: the element of the available
model list at default_model_idx. -/
def defaultSelectedModel (available_models : List JValue) (default_model : String) :
    Option JValue :=
  available_models[default_model_idx available_models default_model]?

/-- One per-agent configuration dict (src/app.py lines 167 to 172). -/
structure AgentConfig where
  model : JValue
  uses_per_month : ℕ
  tokens_per_use : ℕ
  total_tokens : ℕ

/-- Builds the configuration dict the collector stores for one agent, with
the derived total_tokens field of line 171 of the source. -/
def mkAgentConfig (model : JValue) (uses_per_month tokens_per_use : ℕ) : AgentConfig :=
  ⟨model, uses_per_month, tokens_per_use, uses_per_month * tokens_per_use⟩

/-- The per-agent figures the pricing breakdown loop computes (src/app.py
lines 183 to 187). -/
structure CostBreakdown where
  prompt_tokens : ℚ
  completion_tokens : ℚ
  prompt_cost : ℚ
  completion_cost : ℚ
  total_cost : ℚ
deriving DecidableEq

/-- One iteration of the pricing breakdown loop (src/app.py lines 177 to
188). The subscript pricing_data of the model raises KeyError when the
model is not a key of the dict; nothing catches it, so the whole
computation fails. -/
def computeBreakdown (pricing_data : PricingDict) (config : AgentConfig) :
    Except PyError CostBreakdown :=
  let total_tokens : ℚ := (config.total_tokens : ℚ)
  let prompt_tokens := total_tokens * 0.7
  let completion_tokens := total_tokens * 0.3
  match dictLookup pricing_data config.model with
  | none => .error (.keyError config.model)
  | some price =>
    let prompt_cost := prompt_tokens * price.prompt
    let completion_cost := completion_tokens * price.completion
    let total_cost := prompt_cost + completion_cost
    .ok ⟨prompt_tokens, completion_tokens, prompt_cost, completion_cost, total_cost⟩

/-- The pricing breakdown loop with its running accumulator
total_cost_per_teacher (initialised to 0 at line 175 of the source). -/
def costLoop (pricing_data : PricingDict) :
    List AgentConfig → ℚ → Except PyError (List CostBreakdown × ℚ)
  | [], acc => .ok ([], acc)
  | c :: cs, acc =>
    match computeBreakdown pricing_data c with
    | .error e => .error e
    | .ok b =>
      match costLoop pricing_data cs (acc + b.total_cost) with
      | .error e => .error e
      | .ok (bs, total) => .ok (b :: bs, total)

/-- The whole cost section of the script (src/app.py lines 175 to 196): the
per-agent breakdowns, total_cost_per_teacher, and
total_cost_all_teachers = total_cost_per_teacher * num_teachers. -/
def computeCosts (pricing_data : PricingDict) (agent_configs : List AgentConfig)
    (num_teachers : ℕ) : Except PyError (List CostBreakdown × ℚ × ℚ) :=
  match costLoop pricing_data agent_configs 0 with
  | .error e => .error e
  | .ok (bs, total_cost_per_teacher) =>
    .ok (bs, total_cost_per_teacher, total_cost_per_teacher * (num_teachers : ℚ))

/-- The slug value the loop reads from a model descriptor (line 25 of the
source); only meaningful for object descriptors. -/
def slugOf : JValue → JValue
  | .obj mfields => getFieldD mfields "slug" (.str "unknown")
  | _ => .str "unknown"

/-- The price entry the loop would store for a descriptor: some when the
descriptor has a truthy dict endpoint, a dict (or absent) pricing, both
price values convert, and the slug value is hashable so the dict assignment
succeeds; none when the descriptor is skipped or would raise. Mirrors the
branching of processModel without the state. -/
def parsedPrice : JValue → Option Price
  | .obj mfields =>
    let slug := getFieldD mfields "slug" (.str "unknown")
    let endpoint := getFieldD mfields "endpoint" (.obj [])
    if truthy endpoint then
      match endpoint with
      | .obj efields =>
        match getFieldD efields "pricing" (.obj []) with
        | .obj pfields =>
          match floatOrZero (getFieldD pfields "prompt" (.str "0")) with
          | none => none
          | some pf =>
            match floatOrZero (getFieldD pfields "completion" (.str "0")) with
            | none => none
            | some cf => if hashable slug then some ⟨pf, cf⟩ else none
        | _ => none
      | _ => none
    else none
  | _ => none

/-- A descriptor the loop can process without raising: an object whose
endpoint value is either falsy or a dict, and, when the endpoint is a truthy
dict, whose pricing value is a dict or absent. This is the shape the spec
documents for the catalog response in section 6. -/
def wellShapedDescriptor : JValue → Bool
  | .obj mfields =>
    let endpoint := getFieldD mfields "endpoint" (.obj [])
    if truthy endpoint then
      match endpoint with
      | .obj efields =>
        match getFieldD efields "pricing" (.obj []) with
        | .obj _ => true
        | _ => false
      | _ => false
    else true
  | _ => false

/-- A parsed body the resolver can process without raising: a JSON object
whose data value is either a list of well shaped descriptors or falsy. -/
def wellShapedBody : JValue → Bool
  | .obj dfields =>
    match getFieldD dfields "data" (.arr []) with
    | .arr ds => ds.all wellShapedDescriptor
    | v => !truthy v
  | _ => false

/-- The list of model descriptors of a parsed body, empty when the data
value is not a list. -/
def dataModelsList : JValue → List JValue
  | .obj dfields =>
    match getFieldD dfields "data" (.arr []) with
    | .arr ds => ds
    | _ => []
  | _ => []

/-- A catalog body carrying the given descriptor list, in the shape the spec
documents for the endpoint. -/
def catalogBody (ds : List JValue) : JValue :=
  .obj [("data", .arr ds)]

theorem dictLookup_nil (k : JValue) : dictLookup [] k = none := rfl

theorem jbeq_false_of_ne {a b : JValue} (h : a ≠ b) : (a == b) = false := by
  cases hb : a == b
  · rfl
  · exact absurd (by simpa using hb) h

theorem dictLookup_cons_of_ne (a : JValue × Price) (m : PricingDict) (s : JValue)
    (h : (a.1 == s) = false) : dictLookup (a :: m) s = dictLookup m s := by
  simp [dictLookup, List.find?, h]

theorem dictLookup_cons_of_eq (a : JValue × Price) (m : PricingDict) (s : JValue)
    (h : (a.1 == s) = true) : dictLookup (a :: m) s = some a.2 := by
  simp [dictLookup, List.find?, h]

theorem dictLookup_insert_self (m : PricingDict) (k : JValue) (v : Price) :
    dictLookup (dictInsert m k v) k = some v := by
  unfold dictInsert
  by_cases h : m.any (fun p => p.1 == k)
  · simp only [h, if_true]
    induction m with
    | nil => simp at h
    | cons a m ih =>
      by_cases ha : a.1 == k
      · simp [dictLookup, List.find?, ha]
      · simp only [List.any_cons, ha, Bool.false_or] at h
        simpa [dictLookup, List.find?, ha] using ih h
  · simp only [h, if_false]
    induction m with
    | nil => simp [dictLookup, List.find?]
    | cons a m ih =>
      simp only [List.any_cons, Bool.or_eq_true, not_or] at h
      simp only [Bool.not_eq_true] at h
      simp only [List.cons_append]
      simpa [dictLookup, List.find?, h.1] using ih (by simp [h.2])

theorem dictLookup_insert_ne (m : PricingDict) (k v s) (hne : s ≠ k) :
    dictLookup (dictInsert m k v) s = dictLookup m s := by
  unfold dictInsert
  by_cases h : m.any (fun p => p.1 == k)
  · simp only [h, if_true]
    induction m with
    | nil => rfl
    | cons a m ih =>
      by_cases ha : a.1 == k
      · have hak : a.1 = k := by simpa using ha
        have has : (a.1 == s) = false := by
          rw [hak]; exact jbeq_false_of_ne (Ne.symm hne)
        simp only [List.map_cons, ha, if_true]
        rw [dictLookup_cons_of_ne (a.1, v) _ s has, dictLookup_cons_of_ne a _ s has]
        by_cases hm : m.any (fun p => p.1 == k)
        · exact ih hm
        · -- no further occurrence of k: the map rewrites nothing in m
          have hmap : m.map (fun p => if p.1 == k then (p.1, v) else p) = m := by
            have h1 : m.map (fun p => if p.1 == k then (p.1, v) else p) = m.map id := by
              apply List.map_congr_left
              intro p hp
              have hpk : (p.1 == k) = false := by
                by_contra hc
                simp only [Bool.not_eq_false] at hc
                exact hm (List.any_eq_true.mpr ⟨p, hp, hc⟩)
              simp [hpk]
            rw [h1, List.map_id]
          rw [hmap]
      · simp only [List.any_cons, ha, Bool.false_or] at h
        simp only [List.map_cons, ha, if_false]
        by_cases has : a.1 == s
        · simp [dictLookup, List.find?, has]
        · simpa [dictLookup, List.find?, has] using ih h
  · simp only [h, if_false]
    induction m with
    | nil =>
      have hks : (k == s) = false := jbeq_false_of_ne (Ne.symm hne)
      simp [dictLookup, List.find?, hks]
    | cons a m ih =>
      simp only [List.any_cons, Bool.or_eq_true, not_or] at h
      simp only [Bool.not_eq_true] at h
      simp only [List.cons_append]
      by_cases has : a.1 == s
      · simp [dictLookup, List.find?, has]
      · simpa [dictLookup, List.find?, has] using ih (by simp [h.2])

theorem dictLookup_of_mem_keys (s : JValue) :
    ∀ m : PricingDict, s ∈ m.map (fun p => p.1) → ∃ p, dictLookup m s = some p := by
  intro m
  induction m with
  | nil => simp
  | cons a m ih =>
    intro hs
    by_cases has : a.1 == s
    · exact ⟨a.2, by simp [dictLookup, List.find?, has]⟩
    · have htail : s ∈ m.map (fun p => p.1) := by
        rcases (by simpa using hs : s = a.1 ∨ ∃ x, (s, x) ∈ m) with h | ⟨x, hx⟩
        · exact absurd (by rw [h]; simp) has
        · exact List.mem_map_of_mem _ hx
      obtain ⟨p, hp⟩ := ih htail
      exact ⟨p, by simpa [dictLookup, List.find?, has] using hp⟩

theorem processModel_char (st : LoopState) (d : JValue) :
    processModel st d =
      if wellShapedDescriptor d then
        match parsedPrice d with
        | some pr =>
          .ok ⟨dictInsert st.pricing_data (slugOf d) pr,
               st.available_models ++ [slugOf d]⟩
        | none => .ok st
      else .error .attributeError := by
  cases d with
  | obj mfields =>
    simp only [processModel, parsedPrice, wellShapedDescriptor, slugOf]
    by_cases htr : truthy (getFieldD mfields "endpoint" (.obj [])) = true
    · cases he : getFieldD mfields "endpoint" (.obj []) with
      | obj efields =>
        rw [he] at htr
        simp only [he, htr, if_true]
        cases hp : getFieldD efields "pricing" (.obj []) with
        | obj pfields =>
          simp only [hp]
          cases hf : floatOrZero (getFieldD pfields "prompt" (.str "0")) with
          | none => simp [hf]
          | some pf =>
            cases hc : floatOrZero (getFieldD pfields "completion" (.str "0")) with
            | none => simp [hf, hc]
            | some cf =>
              cases hh : hashable (getFieldD mfields "slug" (.str "unknown")) with
              | false => simp [hf, hc, hh]
              | true => simp [hf, hc, hh]
        | null => simp [hp]
        | bool b => simp [hp]
        | num q => simp [hp]
        | str s => simp [hp]
        | arr xs => simp [hp]
      | null => rw [he] at htr; simp [truthy] at htr
      | bool b => rw [he] at htr; simp only [he, htr, if_true]; simp
      | num q => rw [he] at htr; simp only [he, htr, if_true]; simp
      | str s => rw [he] at htr; simp only [he, htr, if_true]; simp
      | arr xs => rw [he] at htr; simp only [he, htr, if_true]; simp
    · simp only [Bool.not_eq_true] at htr
      simp [htr]
  | null => simp [processModel, parsedPrice, wellShapedDescriptor]
  | bool b => simp [processModel, parsedPrice, wellShapedDescriptor]
  | num q => simp [processModel, parsedPrice, wellShapedDescriptor]
  | str s => simp [processModel, parsedPrice, wellShapedDescriptor]
  | arr xs => simp [processModel, parsedPrice, wellShapedDescriptor]

theorem processModels_append (st : LoopState) (l1 l2 : List JValue) :
    processModels st (l1 ++ l2) =
      match processModels st l1 with
      | .error e => .error e
      | .ok st2 => processModels st2 l2 := by
  induction l1 generalizing st with
  | nil => simp [processModels]
  | cons d l ih =>
    simp only [List.cons_append, processModels]
    cases processModel st d with
    | error e => rfl
    | ok st2 => exact ih st2

theorem processModels_ok_of_wellShaped (l : List JValue)
    (hw : ∀ d ∈ l, wellShapedDescriptor d = true) :
    ∀ st, ∃ st2, processModels st l = .ok st2 := by
  induction l with
  | nil => exact fun st => ⟨st, rfl⟩
  | cons d l ih =>
    intro st
    have hd := hw d (by simp)
    rw [processModels, processModel_char, if_pos hd]
    cases hpp : parsedPrice d with
    | none => simp only [hpp]; exact ih (fun d2 h2 => hw d2 (by simp [h2])) st
    | some pr => simp only [hpp]; exact ih (fun d2 h2 => hw d2 (by simp [h2])) _

theorem processModels_skip_all (l : List JValue)
    (h : ∀ d ∈ l, wellShapedDescriptor d = true ∧ parsedPrice d = none) :
    ∀ st, processModels st l = .ok st := by
  induction l with
  | nil => exact fun st => rfl
  | cons d l ih =>
    intro st
    obtain ⟨hw, hpp⟩ := h d (by simp)
    rw [processModels, processModel_char, if_pos hw]
    simp only [hpp]
    exact ih (fun d2 h2 => h d2 (by simp [h2])) st

theorem processModels_keyed (l : List JValue) :
    ∀ st, (∀ s ∈ st.available_models, ∃ p, dictLookup st.pricing_data s = some p) →
    ∀ st2, processModels st l = .ok st2 →
    ∀ s ∈ st2.available_models, ∃ p, dictLookup st2.pricing_data s = some p := by
  induction l with
  | nil =>
    intro st hst st2 h
    rw [processModels] at h
    injection h with h
    exact h ▸ hst
  | cons d l ih =>
    intro st hst st2 h
    rw [processModels, processModel_char] at h
    by_cases hw : wellShapedDescriptor d = true
    · rw [if_pos hw] at h
      cases hpp : parsedPrice d with
      | none => simp only [hpp] at h; exact ih st hst st2 h
      | some pr =>
        simp only [hpp] at h
        refine ih _ ?_ st2 h
        intro s hs
        rcases List.mem_append.mp hs with hs | hs
        · obtain ⟨p, hp⟩ := hst s hs
          by_cases hsk : s = slugOf d
          · exact ⟨pr, hsk ▸ dictLookup_insert_self _ _ _⟩
          · exact ⟨p, by rw [dictLookup_insert_ne _ _ _ _ hsk]; exact hp⟩
        · have hsl : s = slugOf d := by simpa using hs
          exact ⟨pr, hsl ▸ dictLookup_insert_self _ _ _⟩
    · rw [if_neg hw] at h
      exact Except.noConfusion h

theorem processModels_preserve (k : JValue) (v : Price) (l : List JValue) :
    ∀ st, dictLookup st.pricing_data k = some v → k ∈ st.available_models →
    (∀ d ∈ l, slugOf d = k → parsedPrice d = some v) →
    ∀ st2, processModels st l = .ok st2 →
    dictLookup st2.pricing_data k = some v ∧ k ∈ st2.available_models := by
  induction l with
  | nil =>
    intro st hk hmem _ st2 h
    rw [processModels] at h
    injection h with h
    exact h ▸ ⟨hk, hmem⟩
  | cons d l ih =>
    intro st hk hmem hl st2 h
    rw [processModels, processModel_char] at h
    by_cases hw : wellShapedDescriptor d = true
    · rw [if_pos hw] at h
      cases hpp : parsedPrice d with
      | none =>
        simp only [hpp] at h
        exact ih st hk hmem (fun d2 h2 => hl d2 (by simp [h2])) st2 h
      | some pr =>
        simp only [hpp] at h
        by_cases hsk : slugOf d = k
        · have hv : pr = v := by
            have := hl d (by simp) hsk
            rw [hpp] at this
            injection this
          refine ih _ ?_ ?_ (fun d2 h2 => hl d2 (by simp [h2])) st2 h
          · rw [hsk, hv]; exact dictLookup_insert_self _ _ _
          · simp [hmem]
        · refine ih _ ?_ ?_ (fun d2 h2 => hl d2 (by simp [h2])) st2 h
          · rw [dictLookup_insert_ne _ _ _ _ (fun hh => hsk hh.symm)]; exact hk
          · simp [hmem]
    · rw [if_neg hw] at h
      exact Except.noConfusion h

theorem computeBreakdown_missing (pd : PricingDict) (cfg : AgentConfig)
    (hm : dictLookup pd cfg.model = none) :
    computeBreakdown pd cfg = .error (.keyError cfg.model) := by
  simp [computeBreakdown, hm]

theorem computeBreakdown_found (pd : PricingDict) (cfg : AgentConfig) (price : Price)
    (hm : dictLookup pd cfg.model = some price) :
    ∃ b, computeBreakdown pd cfg = .ok b := by
  simp [computeBreakdown, hm]

theorem costLoop_sum (pd : PricingDict) :
    ∀ (cs : List AgentConfig) (acc : ℚ) (bs : List CostBreakdown) (t : ℚ),
      costLoop pd cs acc = .ok (bs, t) →
      t = acc + (bs.map (fun b => b.total_cost)).sum := by
  intro cs
  induction cs with
  | nil =>
    intro acc bs t h
    rw [costLoop] at h
    injection h with h
    injection h with h1 h2
    subst h1
    subst h2
    simp
  | cons c cs ih =>
    intro acc bs t h
    rw [costLoop] at h
    cases hcb : computeBreakdown pd c with
    | error e => simp only [hcb] at h; exact Except.noConfusion h
    | ok b =>
      simp only [hcb] at h
      cases hl : costLoop pd cs (acc + b.total_cost) with
      | error e => simp only [hl] at h; exact Except.noConfusion h
      | ok p =>
        obtain ⟨bs2, t2⟩ := p
        simp only [hl] at h
        injection h with h
        injection h with h1 h2
        subst h1
        subst h2
        rw [ih _ _ _ hl]
        simp only [List.map_cons, List.sum_cons]
        ring

theorem costLoop_missing (pd : PricingDict) (cfg : AgentConfig)
    (hm : dictLookup pd cfg.model = none) :
    ∀ (cs : List AgentConfig) (acc : ℚ), cfg ∈ cs →
      ∀ out, costLoop pd cs acc ≠ .ok out := by
  intro cs
  induction cs with
  | nil => intro acc hmem; simp at hmem
  | cons c cs ih =>
    intro acc hmem out h
    rw [costLoop] at h
    cases hcb : computeBreakdown pd c with
    | error e => simp only [hcb] at h; exact Except.noConfusion h
    | ok b =>
      rcases List.mem_cons.mp hmem with rfl | hmem2
      · rw [computeBreakdown_missing pd cfg hm] at hcb; exact Except.noConfusion hcb
      · simp only [hcb] at h
        cases hl : costLoop pd cs (acc + b.total_cost) with
        | error e => simp only [hl] at h; exact Except.noConfusion h
        | ok p => exact ih _ hmem2 p hl

/-- Claim C1: for every agent configuration whose model is a key of the
price mapping, the computed per-agent breakdown satisfies prompt_tokens =
total_tokens times 0.7, completion_tokens = total_tokens times 0.3,
prompt_cost = prompt_tokens times the prompt price of the model,
completion_cost = completion_tokens times the completion price, and
total_cost = prompt_cost + completion_cost, where total_tokens =
uses_per_month times tokens_per_use. -/
theorem claim1_breakdown_formulas (pd : PricingDict) (cfg : AgentConfig) (price : Price)
    (hm : dictLookup pd cfg.model = some price)
    (ht : cfg.total_tokens = cfg.uses_per_month * cfg.tokens_per_use) :
    ∃ b, computeBreakdown pd cfg = .ok b ∧
      b.prompt_tokens = ((cfg.uses_per_month * cfg.tokens_per_use : ℕ) : ℚ) * 0.7 ∧
      b.completion_tokens = ((cfg.uses_per_month * cfg.tokens_per_use : ℕ) : ℚ) * 0.3 ∧
      b.prompt_cost = b.prompt_tokens * price.prompt ∧
      b.completion_cost = b.completion_tokens * price.completion ∧
      b.total_cost = b.prompt_cost + b.completion_cost := by
  simp only [computeBreakdown, hm]
  exact ⟨_, rfl, by rw [ht], by rw [ht], rfl, rfl, rfl⟩

/-- Witness for C1 at the gpt-4 fallback entry, 4 uses of 1000 tokens. -/
theorem claim1_breakdown_formulas_witness :
    ∃ b, computeBreakdown fallback_pricing (mkAgentConfig (.str "openai/gpt-4") 4 1000) = .ok b ∧
      b.prompt_tokens = ((4 * 1000 : ℕ) : ℚ) * 0.7 ∧
      b.completion_tokens = ((4 * 1000 : ℕ) : ℚ) * 0.3 ∧
      b.prompt_cost = b.prompt_tokens * (0.00003 : ℚ) ∧
      b.completion_cost = b.completion_tokens * (0.00006 : ℚ) ∧
      b.total_cost = b.prompt_cost + b.completion_cost :=
  claim1_breakdown_formulas fallback_pricing (mkAgentConfig (.str "openai/gpt-4") 4 1000)
    ⟨0.00003, 0.00006⟩ rfl rfl

/-- Claim C2: for every list of agent configurations and numTeachers at
least 1, the computed total_cost_per_teacher is the sum of total_cost over
the per-agent breakdowns, and total_cost_all_teachers is
total_cost_per_teacher times numTeachers. -/
theorem claim2_totals (pd : PricingDict) (cfgs : List AgentConfig) (n : ℕ) (hn : 1 ≤ n)
    (bs : List CostBreakdown) (per al : ℚ)
    (h : computeCosts pd cfgs n = .ok (bs, per, al)) :
    per = (bs.map (fun b => b.total_cost)).sum ∧ al = per * (n : ℚ) := by
  rw [computeCosts] at h
  cases hl : costLoop pd cfgs 0 with
  | error e => simp only [hl] at h; exact Except.noConfusion h
  | ok p =>
    obtain ⟨bs2, t2⟩ := p
    simp only [hl] at h
    injection h with h
    injection h with h1 h
    injection h with h2 h3
    subst h1
    subst h2
    subst h3
    refine ⟨?_, rfl⟩
    simpa using costLoop_sum pd cfgs 0 bs2 t2 hl

/-- Witness for C2 at one fallback-priced agent and 5 teachers. -/
theorem claim2_totals_witness :
    ∃ bs per al,
      computeCosts fallback_pricing [mkAgentConfig (.str "openai/gpt-4") 1 1000] 5 =
        .ok (bs, per, al) ∧
      per = (bs.map (fun b => b.total_cost)).sum ∧ al = per * ((5 : ℕ) : ℚ) :=
  ⟨_, _, _, rfl, claim2_totals fallback_pricing [mkAgentConfig (.str "openai/gpt-4") 1 1000] 5
    (by norm_num) _ _ _ rfl⟩

/-- Claim C5: for every agent configuration whose model is absent from the
price mapping, the breakdown computation fails with a KeyError naming that
model, and the whole cost computation of any configuration list containing
that agent never returns a result, in particular not a zero cost. -/
theorem claim5_model_not_found (pd : PricingDict) (cfg : AgentConfig)
    (hm : dictLookup pd cfg.model = none) :
    computeBreakdown pd cfg = .error (.keyError cfg.model) ∧
    ∀ (cfgs : List AgentConfig) (n : ℕ) (out : List CostBreakdown × ℚ × ℚ),
      cfg ∈ cfgs → computeCosts pd cfgs n ≠ .ok out := by
  refine ⟨computeBreakdown_missing pd cfg hm, ?_⟩
  intro cfgs n out hmem h
  rw [computeCosts] at h
  cases hl : costLoop pd cfgs 0 with
  | error e => simp only [hl] at h; exact Except.noConfusion h
  | ok p => exact costLoop_missing pd cfg hm cfgs 0 hmem p hl

/-- Witness for C5 at the ghost/model identifier of the spec scenario. -/
theorem claim5_model_not_found_witness :
    computeBreakdown fallback_pricing (mkAgentConfig (.str "ghost/model") 4 1000) =
      .error (.keyError (.str "ghost/model")) :=
  (claim5_model_not_found fallback_pricing (mkAgentConfig (.str "ghost/model") 4 1000) rfl).1

/-- Claim C8: for every agent preset and every non-empty available-model
list, the default selected model is the preset default model when that
model is in the list, and the first list entry otherwise, with no error in
either case. -/
theorem claim8_default_model (name : String) (pat : AgentPattern)
    (hpat : (name, pat) ∈ AGENT_USAGE_PATTERNS)
    (ms : List JValue) (hne : ms ≠ []) :
    defaultSelectedModel ms pat.default_model =
      some (if JValue.str pat.default_model ∈ ms then JValue.str pat.default_model
            else ms.head hne) := by
  unfold defaultSelectedModel default_model_idx
  by_cases hm : JValue.str pat.default_model ∈ ms
  · rw [if_pos hm, if_pos hm]
    exact List.getElem?_indexOf hm
  · rw [if_neg hm, if_neg hm]
    cases ms with
    | nil => exact absurd rfl hne
    | cons a l => simp

/-- Witness for C8: the Planner Agent preset default is absent from a
one-element model list, so the first entry is selected. -/
theorem claim8_default_model_witness :
    defaultSelectedModel [JValue.str "modelA"] "qwen/qwen3-8b" = some (JValue.str "modelA") := by
  have h := claim8_default_model "Planner Agent"
    ⟨4, 4000, "qwen/qwen3-8b", "Bi-weekly lesson planning"⟩
    (by simp [AGENT_USAGE_PATTERNS]) [JValue.str "modelA"] (by simp)
  rw [h, if_neg (by decide)]
  simp

theorem fetch_success_obj (dfields : List (String × JValue)) :
    fetch_pricing_data (.success (.obj dfields)) =
      (if !truthy (getFieldD dfields "data" (.arr [])) then .ok use_fallback_pricing
       else
         match pyIterate (getFieldD dfields "data" (.arr [])) with
         | .error e => .error e
         | .ok ms =>
           match processModels ⟨[], []⟩ ms with
           | .error e => .error e
           | .ok st =>
             if st.available_models.isEmpty then .ok use_fallback_pricing
             else .ok (st.pricing_data, st.available_models)) := rfl

theorem fetch_catalogBody (ds : List JValue) :
    fetch_pricing_data (.success (catalogBody ds)) =
      (if ds.isEmpty then .ok use_fallback_pricing
       else
         match processModels ⟨[], []⟩ ds with
         | .error e => .error e
         | .ok st =>
           if st.available_models.isEmpty then .ok use_fallback_pricing
           else .ok (st.pricing_data, st.available_models)) := by
  cases ds with
  | nil => rfl
  | cons d ds => rfl

/-- Counterexample for C3: a parseable response body whose top level is a
JSON array (a malformed but parseable top-level structure) reaches the
data.get call on a Python list and raises an uncaught AttributeError,
instead of degrading to the fallback table as the claim requires. -/
theorem claim3_counterexample :
    fetch_pricing_data (.success (.arr [])) = .error .attributeError := rfl

/-- Claim C3 as amended: on every transport-level failure (network failure,
timeout, non-2xx status, unparseable body) the resolver returns the
fallback mapping and model list without raising; and on every parseable
body that is a JSON object whose data entries are well shaped descriptors
it also returns a mapping and model list without raising. A parseable body
of any other shape can instead raise an uncaught error. -/
theorem claim3_amended :
    fetch_pricing_data .exn = .ok use_fallback_pricing ∧
    ∀ b : JValue, wellShapedBody b = true →
      ∃ out, fetch_pricing_data (.success b) = .ok out := by
  refine ⟨rfl, ?_⟩
  intro b hb
  cases b with
  | obj dfields =>
    rw [fetch_success_obj]
    cases hd : getFieldD dfields "data" (.arr []) with
    | arr ds =>
      simp only [wellShapedBody, hd] at hb
      by_cases ht : truthy (.arr ds) = true
      · simp only [ht, Bool.not_true, Bool.false_eq_true, if_false, pyIterate]
        obtain ⟨st2, hst2⟩ := processModels_ok_of_wellShaped ds
          (by simpa [List.all_eq_true] using hb) ⟨[], []⟩
        simp only [hst2]
        by_cases he : st2.available_models.isEmpty = true
        · simp only [he, if_true]
          exact ⟨_, rfl⟩
        · simp only [Bool.not_eq_true] at he
          simp only [he, Bool.false_eq_true, if_false]
          exact ⟨_, rfl⟩
      · simp only [Bool.not_eq_true] at ht
        simp only [ht, Bool.not_false, if_true]
        exact ⟨_, rfl⟩
    | null =>
      simp only [wellShapedBody, hd] at hb
      simp only [hb, if_true]
      exact ⟨_, rfl⟩
    | bool bv =>
      simp only [wellShapedBody, hd] at hb
      simp only [hb, if_true]
      exact ⟨_, rfl⟩
    | num q =>
      simp only [wellShapedBody, hd] at hb
      simp only [hb, if_true]
      exact ⟨_, rfl⟩
    | str s =>
      simp only [wellShapedBody, hd] at hb
      simp only [hb, if_true]
      exact ⟨_, rfl⟩
    | obj fs =>
      simp only [wellShapedBody, hd] at hb
      simp only [hb, if_true]
      exact ⟨_, rfl⟩
  | null => simp [wellShapedBody] at hb
  | bool bv => simp [wellShapedBody] at hb
  | num q => simp [wellShapedBody] at hb
  | str s => simp [wellShapedBody] at hb
  | arr xs => simp [wellShapedBody] at hb

/-- Witness for the amended C3: the failure path, and a parseable empty
catalog body, both produce a result. -/
theorem claim3_amended_witness :
    fetch_pricing_data .exn = .ok use_fallback_pricing ∧
    ∃ out, fetch_pricing_data (.success (catalogBody [])) = .ok out :=
  ⟨claim3_amended.1, claim3_amended.2 (catalogBody []) rfl⟩

/-- Claim C4: for every well shaped live-fetch response (the body shape the
spec documents for the catalog interface) in which zero model descriptors
parse successfully, including an empty or absent model list, the resolver
returns exactly the compiled-in fallback table and the list of its keys. -/
theorem claim4_zero_valid_fallback (b : JValue) (hw : wellShapedBody b = true)
    (hz : ∀ d ∈ dataModelsList b, parsedPrice d = none) :
    fetch_pricing_data (.success b) =
      .ok (fallback_pricing, fallback_pricing.map (fun p => p.1)) := by
  cases b with
  | obj dfields =>
    rw [fetch_success_obj]
    cases hd : getFieldD dfields "data" (.arr []) with
    | arr ds =>
      simp only [wellShapedBody, hd] at hw
      have hz2 : ∀ d ∈ ds, parsedPrice d = none := by
        intro d hdm
        exact hz d (by simp [dataModelsList, hd, hdm])
      by_cases ht : truthy (.arr ds) = true
      · simp only [ht, Bool.not_true, Bool.false_eq_true, if_false, pyIterate]
        have hwall : ∀ d ∈ ds, wellShapedDescriptor d = true := by
          simpa [List.all_eq_true] using hw
        rw [processModels_skip_all ds (fun d hdm => ⟨hwall d hdm, hz2 d hdm⟩) ⟨[], []⟩]
        rfl
      · simp only [Bool.not_eq_true] at ht
        simp only [ht, Bool.not_false, if_true]
        rfl
    | null =>
      simp only [wellShapedBody, hd] at hw
      simp only [hw, if_true]
      rfl
    | bool bv =>
      simp only [wellShapedBody, hd] at hw
      simp only [hw, if_true]
      rfl
    | num q =>
      simp only [wellShapedBody, hd] at hw
      simp only [hw, if_true]
      rfl
    | str s =>
      simp only [wellShapedBody, hd] at hw
      simp only [hw, if_true]
      rfl
    | obj fs =>
      simp only [wellShapedBody, hd] at hw
      simp only [hw, if_true]
      rfl
  | null => simp [wellShapedBody] at hw
  | bool bv => simp [wellShapedBody] at hw
  | num q => simp [wellShapedBody] at hw
  | str s => simp [wellShapedBody] at hw
  | arr xs => simp [wellShapedBody] at hw

/-- Witness for C4: a one-descriptor catalog whose only price string is not
numeric, so zero models parse and the exact fallback table is returned. -/
theorem claim4_zero_valid_fallback_witness :
    fetch_pricing_data (.success (catalogBody [JValue.obj [("slug", .str "m"),
        ("endpoint", .obj [("pricing", .obj [("prompt", .str "abc")])])]])) =
      .ok (fallback_pricing, fallback_pricing.map (fun p => p.1)) :=
  claim4_zero_valid_fallback _ rfl (by decide)

/-- Claim C6: a model descriptor whose prompt or completion price value
fails the float conversion (in particular a non-numeric price string) is
excluded entirely: the fetch of a catalog containing it returns exactly
what the fetch of the same catalog without it returns, so the model is in
neither the mapping nor the model list, the remaining descriptors are
still processed, and the fetch is not aborted. -/
theorem claim6_bad_price_skipped (ds1 ds2 : List JValue) (bad : JValue)
    (mfields efields pfields : List (String × JValue))
    (hbad : bad = .obj mfields)
    (hend : getFieldD mfields "endpoint" (.obj []) = .obj efields)
    (htr : truthy (.obj efields) = true)
    (hpr : getFieldD efields "pricing" (.obj []) = .obj pfields)
    (hnn : floatOrZero (getFieldD pfields "prompt" (.str "0")) = none ∨
           floatOrZero (getFieldD pfields "completion" (.str "0")) = none) :
    fetch_pricing_data (.success (catalogBody (ds1 ++ bad :: ds2))) =
      fetch_pricing_data (.success (catalogBody (ds1 ++ ds2))) := by
  have hw : wellShapedDescriptor bad = true := by
    subst hbad
    simp [wellShapedDescriptor, hend, htr, hpr]
  have hpn : parsedPrice bad = none := by
    subst hbad
    rcases hnn with h | h
    · simp [parsedPrice, hend, htr, hpr, h]
    · cases hf : floatOrZero (getFieldD pfields "prompt" (.str "0")) with
      | none => simp [parsedPrice, hend, htr, hpr, hf]
      | some pf => simp [parsedPrice, hend, htr, hpr, hf, h]
  have hskip : ∀ st, processModel st bad = .ok st := by
    intro st
    rw [processModel_char, if_pos hw]
    simp only [hpn]
  by_cases hemp : ds1 ++ ds2 = []
  · obtain ⟨h1, h2⟩ := List.append_eq_nil.mp hemp
    subst h1
    subst h2
    rw [fetch_catalogBody, fetch_catalogBody]
    simp only [List.nil_append, List.isEmpty_cons, List.isEmpty_nil, if_true,
      Bool.false_eq_true, if_false]
    have hone : processModels ⟨[], []⟩ [bad] = .ok ⟨[], []⟩ := by
      simp only [processModels, hskip]
    rw [hone]
    rfl
  · rw [fetch_catalogBody, fetch_catalogBody]
    have hne1 : ((ds1 ++ bad :: ds2).isEmpty = true) = False := by
      simp [List.isEmpty_iff]
    have hne2 : ((ds1 ++ ds2).isEmpty = true) = False := by
      simp [List.isEmpty_iff, hemp]
    rw [if_neg (by simp [List.isEmpty_iff]), if_neg (by simp [List.isEmpty_iff, hemp])]
    have hloops : processModels ⟨[], []⟩ (ds1 ++ bad :: ds2) =
        processModels ⟨[], []⟩ (ds1 ++ ds2) := by
      rw [processModels_append, processModels_append]
      cases processModels ⟨[], []⟩ ds1 with
      | error e => rfl
      | ok st1 =>
        show processModels st1 (bad :: ds2) = processModels st1 ds2
        simp only [processModels, hskip]
    rw [hloops]

/-- Witness for C6: a catalog of one zero-priced model followed by one
model with prompt price string abc produces the same result as the catalog
without the bad model. -/
theorem claim6_bad_price_skipped_witness :
    fetch_pricing_data (.success (catalogBody
      [JValue.obj [("slug", .str "m3"),
         ("endpoint", .obj [("pricing", .obj [("prompt", .str "0"), ("completion", .str "0")])])],
       JValue.obj [("slug", .str "m2"),
         ("endpoint", .obj [("pricing", .obj [("prompt", .str "abc")])])]])) =
      fetch_pricing_data (.success (catalogBody
        [JValue.obj [("slug", .str "m3"),
           ("endpoint", .obj [("pricing", .obj [("prompt", .str "0"), ("completion", .str "0")])])]])) :=
  claim6_bad_price_skipped
    [JValue.obj [("slug", .str "m3"),
       ("endpoint", .obj [("pricing", .obj [("prompt", .str "0"), ("completion", .str "0")])])]]
    [] _ _ _ _ rfl rfl rfl rfl (Or.inl rfl)

/-- Claim C7: a model descriptor with a string slug (the shape the spec
documents for the catalog interface in section 6) and a truthy dict
endpoint whose prompt and completion price values convert to 0.0 (the
strings 0, empty or absent values) is not skipped: after a successful fetch
of a well shaped catalog containing it (and no other descriptor carrying
the same slug), its slug is a key of the returned mapping with prices 0.0
and 0.0, and its slug appears in the available-model list. The string-slug
hypothesis matters: an unhashable slug value (a JSON array or object) makes
the dict assignment of the source raise TypeError, which the per-model
except catches, so such a descriptor is skipped instead of included. -/
theorem claim7_zero_priced_included (dfields : List (String × JValue)) (ds : List JValue)
    (d : JValue) (mfields efields pfields : List (String × JValue)) (sl : String)
    (hdata : getFieldD dfields "data" (.arr []) = .arr ds)
    (hw : wellShapedBody (.obj dfields) = true)
    (hd : d ∈ ds)
    (hdo : d = .obj mfields)
    (hslug : slugOf d = .str sl)
    (hend : getFieldD mfields "endpoint" (.obj []) = .obj efields)
    (htr : truthy (.obj efields) = true)
    (hpr : getFieldD efields "pricing" (.obj []) = .obj pfields)
    (hp0 : floatOrZero (getFieldD pfields "prompt" (.str "0")) = some 0)
    (hc0 : floatOrZero (getFieldD pfields "completion" (.str "0")) = some 0)
    (huniq : ∀ d2 ∈ ds, slugOf d2 = slugOf d → d2 = d) :
    ∃ m l, fetch_pricing_data (.success (.obj dfields)) = .ok (m, l) ∧
      dictLookup m (slugOf d) = some ⟨0, 0⟩ ∧ slugOf d ∈ l := by
  have hpp : parsedPrice d = some ⟨0, 0⟩ := by
    subst hdo
    simp only [slugOf] at hslug
    simp [parsedPrice, hend, htr, hpr, hp0, hc0, hslug, hashable]
  have hwall : ∀ d2 ∈ ds, wellShapedDescriptor d2 = true := by
    have hw2 := hw
    simp only [wellShapedBody, hdata] at hw2
    simpa [List.all_eq_true] using hw2
  have hsame : ∀ d2 ∈ ds, slugOf d2 = slugOf d → parsedPrice d2 = some ⟨0, 0⟩ := by
    intro d2 h2 hs
    rw [huniq d2 h2 hs]
    exact hpp
  obtain ⟨l1, l2, rfl⟩ := List.append_of_mem hd
  obtain ⟨st1, hst1⟩ := processModels_ok_of_wellShaped l1
    (fun d2 h2 => hwall d2 (by simp [h2])) ⟨[], []⟩
  have hstep : processModel st1 d =
      .ok ⟨dictInsert st1.pricing_data (slugOf d) ⟨0, 0⟩,
           st1.available_models ++ [slugOf d]⟩ := by
    rw [processModel_char, if_pos (hwall d (by simp))]
    simp only [hpp]
  obtain ⟨stf, hstf⟩ := processModels_ok_of_wellShaped l2
    (fun d2 h2 => hwall d2 (by simp [h2]))
    ⟨dictInsert st1.pricing_data (slugOf d) ⟨0, 0⟩, st1.available_models ++ [slugOf d]⟩
  have hfacts := processModels_preserve (slugOf d) ⟨0, 0⟩ l2
    ⟨dictInsert st1.pricing_data (slugOf d) ⟨0, 0⟩, st1.available_models ++ [slugOf d]⟩
    (dictLookup_insert_self _ _ _) (by simp)
    (fun d2 h2 hs => hsame d2 (by simp [h2]) hs) stf hstf
  have hloop : processModels ⟨[], []⟩ (l1 ++ d :: l2) = .ok stf := by
    rw [processModels_append, hst1]
    show processModels st1 (d :: l2) = .ok stf
    rw [processModels, hstep]
    exact hstf
  rw [fetch_success_obj, hdata]
  have htarr : truthy (.arr (l1 ++ d :: l2)) = true := by
    simp [truthy]
  simp only [htarr, Bool.not_true, Bool.false_eq_true, if_false, pyIterate, hloop]
  have hne : stf.available_models.isEmpty = false := by
    cases he : stf.available_models.isEmpty
    · rfl
    · exact absurd (List.isEmpty_iff.mp he ▸ hfacts.2) (List.not_mem_nil _)
  simp only [hne, Bool.false_eq_true, if_false]
  exact ⟨_, _, rfl, hfacts.1, hfacts.2⟩

/-- Pricing fields of the zero-priced sample descriptor used as C7 witness
input. -/
def zeroSamplePricing : List (String × JValue) :=
  [("prompt", JValue.str "0"), ("completion", JValue.str "0")]

/-- Endpoint fields of the zero-priced sample descriptor. -/
def zeroSampleEndpoint : List (String × JValue) :=
  [("pricing", JValue.obj zeroSamplePricing)]

/-- Fields of the zero-priced sample descriptor. -/
def zeroSampleFields : List (String × JValue) :=
  [("slug", JValue.str "m3"), ("endpoint", JValue.obj zeroSampleEndpoint)]

/-- The zero-priced sample descriptor. -/
def zeroSample : JValue := .obj zeroSampleFields

/-- A catalog body holding only the zero-priced sample descriptor. -/
def zeroSampleCatalog : List (String × JValue) := [("data", JValue.arr [zeroSample])]

/-- Witness for C7: a catalog of a single model with prompt and completion
price strings 0 is included with zero prices. -/
theorem claim7_zero_priced_included_witness :
    ∃ m l, fetch_pricing_data (.success (.obj zeroSampleCatalog)) = .ok (m, l) ∧
      dictLookup m (slugOf zeroSample) = some ⟨0, 0⟩ ∧ slugOf zeroSample ∈ l :=
  claim7_zero_priced_included zeroSampleCatalog [zeroSample] zeroSample
    zeroSampleFields zeroSampleEndpoint zeroSamplePricing "m3"
    rfl rfl (by simp) rfl rfl rfl rfl rfl
    (by simp +decide [zeroSamplePricing, getFieldD, getField, floatOrZero, truthy,
      pyFloat, parseFloat, stripChars, isPySpace, digitsVal])
    (by simp +decide [zeroSamplePricing, getFieldD, getField, floatOrZero, truthy,
      pyFloat, parseFloat, stripChars, isPySpace, digitsVal])
    (by decide)

/-- Claim C10: whatever the outcome of the resolver, live or fallback,
every entry of the returned available-model list is a key of the returned
pricing mapping, so the breakdown computation succeeds for any agent
configuration selecting a model from that list. -/
theorem claim10_list_keys_mapping (r : HttpOutcome) (m : PricingDict) (l : List JValue)
    (h : fetch_pricing_data r = .ok (m, l)) :
    ∀ s ∈ l, (∃ p, dictLookup m s = some p) ∧
      ∀ cfg : AgentConfig, cfg.model = s → ∃ b, computeBreakdown m cfg = .ok b := by
  have hkey : ∀ s ∈ l, ∃ p, dictLookup m s = some p := by
    cases r with
    | exn =>
      injection h with h2
      injection h2 with hm hl
      subst hm
      subst hl
      intro s hs
      exact dictLookup_of_mem_keys s fallback_pricing hs
    | success body =>
      cases body with
      | obj dfields =>
        rw [fetch_success_obj] at h
        by_cases ht : truthy (getFieldD dfields "data" (.arr [])) = true
        · simp only [ht, Bool.not_true, Bool.false_eq_true, if_false] at h
          cases hit : pyIterate (getFieldD dfields "data" (.arr [])) with
          | error e => simp only [hit] at h; exact Except.noConfusion h
          | ok ms =>
            simp only [hit] at h
            cases hpm : processModels ⟨[], []⟩ ms with
            | error e => simp only [hpm] at h; exact Except.noConfusion h
            | ok st =>
              simp only [hpm] at h
              by_cases he : st.available_models.isEmpty = true
              · simp only [he, if_true] at h
                injection h with h2
                injection h2 with hm hl
                subst hm
                subst hl
                intro s hs
                exact dictLookup_of_mem_keys s fallback_pricing hs
              · simp only [Bool.not_eq_true] at he
                simp only [he, Bool.false_eq_true, if_false] at h
                injection h with h2
                injection h2 with hm hl
                subst hm
                subst hl
                intro s hs
                exact processModels_keyed ms ⟨[], []⟩ (by simp) st hpm s hs
        · simp only [Bool.not_eq_true] at ht
          simp only [ht, Bool.not_false, if_true] at h
          injection h with h2
          injection h2 with hm hl
          subst hm
          subst hl
          intro s hs
          exact dictLookup_of_mem_keys s fallback_pricing hs
      | null => exact Except.noConfusion h
      | bool bv => exact Except.noConfusion h
      | num q => exact Except.noConfusion h
      | str sv => exact Except.noConfusion h
      | arr xs => exact Except.noConfusion h
  intro s hs
  refine ⟨hkey s hs, ?_⟩
  intro cfg hcfg
  obtain ⟨p, hp⟩ := hkey s hs
  exact computeBreakdown_found m cfg p (by rw [hcfg]; exact hp)

/-- Witness for C10 on the fallback outcome and one of its models. -/
theorem claim10_list_keys_mapping_witness :
    (∃ p, dictLookup fallback_pricing (.str "openai/gpt-4") = some p) ∧
    ∃ b, computeBreakdown fallback_pricing (mkAgentConfig (.str "openai/gpt-4") 3 100) = .ok b := by
  have h := claim10_list_keys_mapping .exn fallback_pricing
    (List.map Prod.fst fallback_pricing) rfl (.str "openai/gpt-4") (by decide)
  exact ⟨h.1, h.2 (mkAgentConfig (.str "openai/gpt-4") 3 100) rfl⟩
